import Mathlib

/-!
LCD driver over I2C (`i2cNombre.c`)

A shallow embedding of the HD44780 / PCF8574 driver of `src/i2cNombre.c`.

* Every `void` function of the driver becomes a function returning the list of
  hardware events it performs, in program order (`List Event`).
* The three configuration macros tested by `#ifdef` / `#if defined` are the
  fields of `Platform`.
* C `int` is the 32-bit two's complement integer of the target (RP2040); the
  bitwise operators act on the bit pattern (`int_bits`, `int_of_bits`).
  `uint8_t` values are naturals below 256 and a conversion to `uint8_t` is
  `u8`, reduction modulo 256.
* A `const char *` argument is the list of `char` values found from the
  pointer to the end of the object it points into; reading past that end is
  undefined behaviour and modelled by `none`.
-/

namespace I2cNombre

set_option maxRecDepth 100000

/-! ## Machine integers -/

/-- Bit pattern of a 32-bit two's complement `int`. -/
def int_bits (x : Int) : Nat := (x % 4294967296).toNat

/-- Value of a 32-bit two's complement bit pattern. -/
def int_of_bits (n : Nat) : Int :=
  if n % 4294967296 < 2147483648 then ((n % 4294967296 : Nat) : Int)
  else ((n % 4294967296 : Nat) : Int) - 4294967296

/-- C operator `|` on `int`. -/
def int_or (a b : Int) : Int := int_of_bits (int_bits a ||| int_bits b)

/-- C operator `&` on `int`. -/
def int_and (a b : Int) : Int := int_of_bits (int_bits a &&& int_bits b)

/-- C operator `~` on `int`. -/
def int_not (a : Int) : Int := int_of_bits (4294967295 - int_bits a)

/-- C operator `<<` on `int` (the bits shifted out are dropped). -/
def int_shl (a : Int) (k : Nat) : Int := int_of_bits (int_bits a <<< k)

/-- C operator `+` on `int`, wrapping on overflow. -/
def int_add (a b : Int) : Int := int_of_bits (int_bits (a + b))

/-- Conversion of an integer value to `uint8_t`. -/
def u8 (x : Int) : Nat := (x % 256).toNat

/-! ## Constants of the source -/

def LCD_CMD_CLEAR : Int := 0x01
def LCD_CMD_ENTRY_MODE : Int := 0x04
def LCD_CMD_DISPLAY_CTRL : Int := 0x08
def LCD_CMD_FUNCTION_SET : Int := 0x20
def LCD_OPT_TWO_LINE : Int := 0x08
def LCD_OPT_DISPLAY_ON : Int := 0x04
def LCD_OPT_BACKLIGHT : Int := 0x08
def LCD_ENABLE_SIGNAL : Int := 0x04

def lcd_i2c_address : Int := 0x27

def LCD_MODE_CHARACTER : Int := 1
def LCD_MODE_COMMAND : Int := 0
def LCD_MAX_LINES : Int := 2
def LCD_MAX_COLUMNS : Int := 16

/-! ## Platform and hardware events -/

/-- The configuration macros the source tests: `i2c_default` (defined or not)
and the two default pin numbers (defined with a value, or not defined). -/
structure Platform where
  i2c_default : Bool
  PICO_DEFAULT_I2C_SDA_PIN : Option Nat
  PICO_DEFAULT_I2C_SCL_PIN : Option Nat
deriving DecidableEq, Repr

/-- Pin functions of the SDK; the source uses only `GPIO_FUNC_I2C`. -/
inductive GpioFunction where
  | GPIO_FUNC_I2C
deriving DecidableEq, Repr

/-- One call into the platform SDK. -/
inductive Event where
  | sleep_us (us : Nat)
  | i2c_write_blocking (addr : Int) (src : List Nat) (nostop : Bool)
  | i2c_init (baudrate : Nat)
  | gpio_set_function (gpio : Nat) (fn : GpioFunction)
  | gpio_pull_up (gpio : Nat)
deriving DecidableEq, Repr

/-- The call `sleep_us(us)`. -/
def sleep_us (us : Nat) : List Event := [Event.sleep_us us]

/-! ## The driver -/

/-- Source lines 24-28: one blocking write of the byte `data` to the display
address when `i2c_default` is defined, an empty body otherwise. -/
def i2c_send_byte (p : Platform) (data : Nat) : List Event :=
  if p.i2c_default then [Event.i2c_write_blocking lcd_i2c_address [data] false] else []

/-- Source lines 31-37. The arguments of the two calls are computed in `int`
and converted to `uint8_t`. -/
def lcd_toggle (p : Platform) (data : Nat) : List Event :=
  sleep_us 600
    ++ i2c_send_byte p (u8 (int_or (data : Int) LCD_ENABLE_SIGNAL))
    ++ sleep_us 600
    ++ i2c_send_byte p (u8 (int_and (data : Int) (int_not LCD_ENABLE_SIGNAL)))
    ++ sleep_us 600

/-- Source line 41: the local `high_nibble` of `lcd_send`. -/
def high_nibble (data : Nat) (mode : Int) : Nat :=
  u8 (int_or (int_or mode (int_and (data : Int) 0xF0)) LCD_OPT_BACKLIGHT)

/-- Source line 42: the local `low_nibble` of `lcd_send`. -/
def low_nibble (data : Nat) (mode : Int) : Nat :=
  u8 (int_or (int_or mode (int_and (int_shl (data : Int) 4) 0xF0)) LCD_OPT_BACKLIGHT)

/-- Source lines 40-48. `data` is the `uint8_t` parameter (callers convert). -/
def lcd_send (p : Platform) (data : Nat) (mode : Int) : List Event :=
  i2c_send_byte p (high_nibble data mode)
    ++ lcd_toggle p (high_nibble data mode)
    ++ i2c_send_byte p (low_nibble data mode)
    ++ lcd_toggle p (low_nibble data mode)

/-- Source lines 51-53. -/
def lcd_clear (p : Platform) : List Event :=
  lcd_send p (u8 LCD_CMD_CLEAR) LCD_MODE_COMMAND

/-- Source lines 56-59. The `int` address is converted to `uint8_t` at the call. -/
def lcd_set_cursor (p : Platform) (line pos : Int) : List Event :=
  let address : Int := if line = 0 then int_add 0x80 pos else int_add 0xC0 pos
  lcd_send p (u8 address) LCD_MODE_COMMAND

/-- Source lines 62-64. The `char` is converted to `uint8_t` at the call. -/
def lcd_show_char (p : Platform) (character : Int) : List Event :=
  lcd_send p (u8 character) LCD_MODE_CHARACTER

/-- Source lines 67-71. The argument is the memory from `str` to the end of
the object; the loop stops at the first zero `char`, and running off the end
of the object gives `none`. -/
def lcd_show_string (p : Platform) : List Int → Option (List Event)
  | [] => none
  | c :: str =>
    if c = 0 then some []
    else (lcd_show_string p str).map (fun t => lcd_show_char p c ++ t)

/-- Source lines 74-85. -/
def lcd_initialize (p : Platform) : List Event :=
  lcd_send p (u8 0x03) LCD_MODE_COMMAND
    ++ lcd_send p (u8 0x03) LCD_MODE_COMMAND
    ++ lcd_send p (u8 0x03) LCD_MODE_COMMAND
    ++ lcd_send p (u8 0x02) LCD_MODE_COMMAND
    ++ lcd_send p (u8 LCD_CMD_ENTRY_MODE) LCD_MODE_COMMAND
    ++ lcd_send p (u8 (int_or LCD_CMD_FUNCTION_SET LCD_OPT_TWO_LINE)) LCD_MODE_COMMAND
    ++ lcd_send p (u8 (int_or LCD_CMD_DISPLAY_CTRL LCD_OPT_DISPLAY_ON)) LCD_MODE_COMMAND
    ++ lcd_clear p

/-- The array a C string literal denotes: its characters and a final zero. -/
def c_string (s : String) : List Int :=
  s.toList.map (fun c => (c.toNat : Int)) ++ [0]

/-- The bus and pin configuration of source lines 92-96. -/
def main_config (sda scl : Nat) : List Event :=
  [Event.i2c_init (100 * 1000),
   Event.gpio_set_function sda GpioFunction.GPIO_FUNC_I2C,
   Event.gpio_set_function scl GpioFunction.GPIO_FUNC_I2C,
   Event.gpio_pull_up sda,
   Event.gpio_pull_up scl]

/-- Source lines 87-109: the events of `main` up to the final `while (1);`,
which performs none. When one of the three macros is undefined the body is
empty. -/
def main (p : Platform) : Option (List Event) :=
  match p.i2c_default, p.PICO_DEFAULT_I2C_SDA_PIN, p.PICO_DEFAULT_I2C_SCL_PIN with
  | true, some sda, some scl =>
    (lcd_show_string p (c_string "Flores Dominguez")).bind (fun line0 =>
      (lcd_show_string p (c_string "Eduardo")).bind (fun line1 =>
        some (main_config sda scl
          ++ lcd_initialize p
          ++ lcd_set_cursor p 0 3
          ++ line0
          ++ lcd_set_cursor p 1 3
          ++ line1)))
  | _, _, _ => some []

/-! ## Observations on traces -/

/-- The bytes put on the bus, in order. -/
def bus_writes : List Event → List Nat
  | [] => []
  | Event.i2c_write_blocking _ src _ :: t => src ++ bus_writes t
  | _ :: t => bus_writes t

/-- The delays of a trace, in order, in microseconds. -/
def delays : List Event → List Nat
  | [] => []
  | Event.sleep_us us :: t => us :: delays t
  | _ :: t => delays t

/-- Sum of the delays of a trace, in microseconds. -/
def total_delay (t : List Event) : Nat := (delays t).sum

/-- Whether an event is a bus write. -/
def is_write : Event → Bool
  | Event.i2c_write_blocking _ _ _ => true
  | _ => false

/-- No two consecutive events of the trace are both bus writes. -/
def no_adjacent_writes : List Event → Bool
  | a :: b :: t => !(is_write a && is_write b) && no_adjacent_writes (b :: t)
  | _ => true

/-- A board with the default bus and the default pins of the Raspberry Pi Pico. -/
def pico : Platform :=
  { i2c_default := true, PICO_DEFAULT_I2C_SDA_PIN := some 4, PICO_DEFAULT_I2C_SCL_PIN := some 5 }

/-- A board without a default I2C bus. -/
def no_i2c : Platform :=
  { i2c_default := false, PICO_DEFAULT_I2C_SDA_PIN := none, PICO_DEFAULT_I2C_SCL_PIN := none }

/-- Source line 57: the local `address` of `lcd_set_cursor`. -/
def cursor_address (line pos : Int) : Int :=
  if line = 0 then int_add 0x80 pos else int_add 0xC0 pos

/-- The device address of a bus write, `none` for any other event. -/
def write_address : Event → Option Int
  | Event.i2c_write_blocking addr _ _ => some addr
  | _ => none

/-- The number of bytes of a bus write, `none` for any other event. -/
def write_length : Event → Option Nat
  | Event.i2c_write_blocking _ src _ => some src.length
  | _ => none

/-! ## Helper lemmas -/

theorem i2c_send_byte_congr (p q : Platform) (h : p.i2c_default = q.i2c_default) (data : Nat) :
    i2c_send_byte p data = i2c_send_byte q data := by
  simp [i2c_send_byte, h]

theorem lcd_toggle_congr (p q : Platform) (h : p.i2c_default = q.i2c_default) (data : Nat) :
    lcd_toggle p data = lcd_toggle q data := by
  simp [lcd_toggle, i2c_send_byte_congr p q h]

theorem lcd_send_congr (p q : Platform) (h : p.i2c_default = q.i2c_default) (data : Nat)
    (mode : Int) : lcd_send p data mode = lcd_send q data mode := by
  simp [lcd_send, i2c_send_byte_congr p q h, lcd_toggle_congr p q h]

theorem i2c_send_byte_configured (p : Platform) (h : p.i2c_default = true) (data : Nat) :
    i2c_send_byte p data = [Event.i2c_write_blocking lcd_i2c_address [data] false] := by
  simp [i2c_send_byte, h]

theorem bus_writes_append (s t : List Event) :
    bus_writes (s ++ t) = bus_writes s ++ bus_writes t := by
  induction s with
  | nil => rfl
  | cons e s ih => cases e <;> simp [bus_writes, ih]

theorem delays_append (s t : List Event) : delays (s ++ t) = delays s ++ delays t := by
  induction s with
  | nil => rfl
  | cons e s ih => cases e <;> simp [delays, ih]

theorem total_delay_append (s t : List Event) :
    total_delay (s ++ t) = total_delay s + total_delay t := by
  simp [total_delay, delays_append]

theorem enable_set_byte :
    ∀ v : Nat, v < 256 → u8 (int_or (v : Int) LCD_ENABLE_SIGNAL) = v ||| 4 := by
  decide

theorem enable_clear_byte :
    ∀ v : Nat, v < 256 → u8 (int_and (v : Int) (int_not LCD_ENABLE_SIGNAL)) = v &&& 251 := by
  decide

theorem nibbles_reconstruct_command :
    ∀ b : Nat, b < 256 →
      (high_nibble b LCD_MODE_COMMAND &&& 0xF0) ||| (low_nibble b LCD_MODE_COMMAND >>> 4) = b := by
  decide

theorem nibbles_reconstruct_character :
    ∀ b : Nat, b < 256 →
      (high_nibble b LCD_MODE_CHARACTER &&& 0xF0) ||| (low_nibble b LCD_MODE_CHARACTER >>> 4)
        = b := by
  decide

theorem nibble_formulas_command :
    ∀ d : Nat, d < 256 →
      high_nibble d LCD_MODE_COMMAND = (0 ||| (d &&& 0xF0) ||| 0x08) % 256
      ∧ low_nibble d LCD_MODE_COMMAND = (0 ||| ((d <<< 4) &&& 0xF0) ||| 0x08) % 256 := by
  decide

theorem nibble_formulas_character :
    ∀ d : Nat, d < 256 →
      high_nibble d LCD_MODE_CHARACTER = (1 ||| (d &&& 0xF0) ||| 0x08) % 256
      ∧ low_nibble d LCD_MODE_CHARACTER = (1 ||| ((d <<< 4) &&& 0xF0) ||| 0x08) % 256 := by
  decide

theorem nibble_lt_command :
    ∀ d : Nat, d < 256 → high_nibble d LCD_MODE_COMMAND < 256 ∧ low_nibble d LCD_MODE_COMMAND < 256 := by
  decide

theorem nibble_lt_character :
    ∀ d : Nat, d < 256 →
      high_nibble d LCD_MODE_CHARACTER < 256 ∧ low_nibble d LCD_MODE_CHARACTER < 256 := by
  decide

theorem bus_writes_toggle (p : Platform) (h : p.i2c_default = true) (v : Nat) (hv : v < 256) :
    bus_writes (lcd_toggle p v) = [v ||| 4, v &&& 251] := by
  simp [lcd_toggle, sleep_us, i2c_send_byte_configured p h, bus_writes,
    enable_set_byte v hv, enable_clear_byte v hv]

theorem bus_writes_send (p : Platform) (h : p.i2c_default = true) (data : Nat) (mode : Int)
    (hh : high_nibble data mode < 256) (hl : low_nibble data mode < 256) :
    bus_writes (lcd_send p data mode)
      = [high_nibble data mode, high_nibble data mode ||| 4, high_nibble data mode &&& 251,
         low_nibble data mode, low_nibble data mode ||| 4, low_nibble data mode &&& 251] := by
  unfold lcd_send
  rw [bus_writes_append, bus_writes_append, bus_writes_append, bus_writes_toggle p h _ hh,
    bus_writes_toggle p h _ hl, i2c_send_byte_configured p h, i2c_send_byte_configured p h]
  simp [bus_writes]

theorem enable_bits_low :
    ∀ v : Nat, v < 256 → ∀ i : Nat, i < 8 →
      (v ||| 4).testBit i = (if i = 2 then true else v.testBit i)
      ∧ (v &&& 251).testBit i = (if i = 2 then false else v.testBit i) := by
  decide

theorem enable_bits (v : Nat) (hv : v < 256) (i : Nat) :
    (v ||| 4).testBit i = (if i = 2 then true else v.testBit i)
    ∧ (v &&& 251).testBit i = (if i = 2 then false else v.testBit i) := by
  by_cases hi : i < 8
  · exact enable_bits_low v hv i hi
  · have h8 : 8 ≤ i := Nat.le_of_not_lt hi
    have hpow : 256 ≤ 2 ^ i := by
      calc 256 = 2 ^ 8 := by norm_num
        _ ≤ 2 ^ i := Nat.pow_le_pow_right (by norm_num) h8
    have hne : i ≠ 2 := by omega
    have h1 : v.testBit i = false := Nat.testBit_lt_two_pow (lt_of_lt_of_le hv hpow)
    have h2 : (4 : Nat).testBit i = false :=
      Nat.testBit_lt_two_pow (lt_of_lt_of_le (by norm_num) hpow)
    simp [Nat.testBit_or, Nat.testBit_and, h1, h2, hne]

theorem delays_i2c_send_byte (p : Platform) (data : Nat) : delays (i2c_send_byte p data) = [] := by
  unfold i2c_send_byte
  split <;> rfl

theorem delays_toggle (p : Platform) (v : Nat) : delays (lcd_toggle p v) = [600, 600, 600] := by
  simp [lcd_toggle, delays_append, delays_i2c_send_byte, sleep_us, delays]

theorem delays_send (p : Platform) (data : Nat) (mode : Int) :
    delays (lcd_send p data mode) = [600, 600, 600, 600, 600, 600] := by
  simp [lcd_send, delays_append, delays_i2c_send_byte, delays_toggle]

theorem total_delay_send (p : Platform) (data : Nat) (mode : Int) :
    total_delay (lcd_send p data mode) = 3600 := by
  simp [total_delay, delays_send]

theorem total_delay_flatten_sends (p : Platform) (l : List (Nat × Int)) :
    total_delay ((l.map (fun dm => lcd_send p dm.1 dm.2)).flatten) = l.length * 3600 := by
  induction l with
  | nil => rfl
  | cons a l ih =>
    simp only [List.map_cons, List.flatten_cons, total_delay_append, total_delay_send, ih,
      List.length_cons]
    ring

/-- The loop of `lcd_show_string` on a buffer whose first zero follows the characters `s`:
one `lcd_show_char` per character of `s`, in order, and nothing for what follows the zero. -/
theorem lcd_show_string_until_zero (p : Platform) (s rest : List Int)
    (hs : ∀ c ∈ s, c ≠ 0) :
    lcd_show_string p (s ++ 0 :: rest) = some ((s.map (fun c => lcd_show_char p c)).flatten) := by
  induction s with
  | nil => simp [lcd_show_string]
  | cons c s ih =>
    have hc : c ≠ 0 := hs c (List.mem_cons_self c s)
    have hs2 : ∀ d ∈ s, d ≠ 0 := fun d hd => hs d (List.mem_cons_of_mem c hd)
    simp [lcd_show_string, hc, ih hs2]

/-- A string literal of non-zero characters that fit a byte is shown as one
character-mode send per character. -/
theorem lcd_show_string_literal (p : Platform) (s : String)
    (hz : ∀ ch ∈ s.toList, (ch.toNat : Int) ≠ 0)
    (hb : ∀ ch ∈ s.toList, u8 (ch.toNat : Int) = ch.toNat) :
    lcd_show_string p (c_string s)
      = some ((s.toList.map (fun ch => lcd_send p ch.toNat LCD_MODE_CHARACTER)).flatten) := by
  have hs : ∀ c ∈ s.toList.map (fun ch => (ch.toNat : Int)), c ≠ 0 := by
    intro c hc
    obtain ⟨ch, hch, rfl⟩ := List.mem_map.mp hc
    exact hz ch hch
  have hm : List.map ((fun c => lcd_show_char p c) ∘ fun ch => (ch.toNat : Int)) s.toList
      = List.map (fun ch => lcd_send p ch.toNat LCD_MODE_CHARACTER) s.toList := by
    apply List.map_congr_left
    intro ch hch
    simp [lcd_show_char, hb ch hch]
  rw [c_string, lcd_show_string_until_zero p _ [] hs, List.map_map, hm]

theorem cursor_address_byte :
    ∀ n : Nat, n < 16 →
      u8 (int_add 0x80 (n : Int)) = 0x80 + n ∧ u8 (int_add 0xC0 (n : Int)) = 0xC0 + n := by
  decide

/-! ### Properties of every event and every bus byte of an operation -/

theorem u8_lt (x : Int) : u8 x < 256 := by
  unfold u8
  omega

theorem high_nibble_lt (data : Nat) (mode : Int) : high_nibble data mode < 256 :=
  u8_lt _

theorem low_nibble_lt (data : Nat) (mode : Int) : low_nibble data mode < 256 :=
  u8_lt _

theorem u8_int_of_bits (n : Nat) : u8 (int_of_bits n) = n % 256 := by
  unfold u8 int_of_bits
  split <;> omega

theorem int_bits_mod (x : Int) : int_bits x % 256 = u8 x := by
  unfold u8 int_bits
  omega

theorem bus_writes_send_unconfigured (p : Platform) (h : p.i2c_default = false) (data : Nat)
    (mode : Int) : bus_writes (lcd_send p data mode) = [] := by
  simp [lcd_send, lcd_toggle, i2c_send_byte, h, sleep_us, bus_writes]

theorem bus_writes_send_length (p : Platform) (h : p.i2c_default = true) (data : Nat)
    (mode : Int) : (bus_writes (lcd_send p data mode)).length = 6 := by
  rw [bus_writes_send p h data mode (high_nibble_lt data mode) (low_nibble_lt data mode)]
  rfl

/-- A property of bus bytes holds of every byte a trace writes exactly when it holds of the
bytes of each of its events. -/
theorem bus_writes_forall_iff (Q : Nat → Prop) (t : List Event) :
    (∀ b ∈ bus_writes t, Q b) ↔ ∀ e ∈ t, ∀ b ∈ bus_writes [e], Q b := by
  induction t with
  | nil => simp [bus_writes]
  | cons e t ih =>
    have hc : bus_writes (e :: t) = bus_writes [e] ++ bus_writes t :=
      bus_writes_append [e] t
    rw [hc]
    constructor
    · intro h x hx b hb
      rcases List.mem_cons.mp hx with rfl | hx
      · exact h b (List.mem_append_left _ hb)
      · exact ih.mp (fun b hb => h b (List.mem_append_right _ hb)) x hx b hb
    · intro h b hb
      rcases List.mem_append.mp hb with hb | hb
      · exact h e (List.mem_cons_self e t) b hb
      · exact ih.mpr (fun x hx => h x (List.mem_cons_of_mem e hx)) b hb

/-- What holds of every event of every command-mode send holds of every event of
`lcd_clear`, `lcd_set_cursor` and `lcd_initialize`. -/
theorem command_ops_forall (P : Event → Prop) (p : Platform)
    (hcmd : ∀ d : Nat, d < 256 → ∀ e ∈ lcd_send p d LCD_MODE_COMMAND, P e) :
    (∀ e ∈ lcd_clear p, P e)
      ∧ (∀ line pos : Int, ∀ e ∈ lcd_set_cursor p line pos, P e)
      ∧ (∀ e ∈ lcd_initialize p, P e) := by
  have hclear : ∀ e ∈ lcd_clear p, P e := hcmd _ (u8_lt _)
  refine ⟨hclear, fun line pos => hcmd _ (u8_lt _), ?_⟩
  intro e he
  unfold lcd_initialize at he
  simp only [List.mem_append] at he
  rcases he with ((((((he | he) | he) | he) | he) | he) | he) | he
  · exact hcmd _ (u8_lt _) e he
  · exact hcmd _ (u8_lt _) e he
  · exact hcmd _ (u8_lt _) e he
  · exact hcmd _ (u8_lt _) e he
  · exact hcmd _ (u8_lt _) e he
  · exact hcmd _ (u8_lt _) e he
  · exact hcmd _ (u8_lt _) e he
  · exact hclear e he

/-- What holds of every event of every character-mode send holds of every event of
`lcd_show_char` and of every trace `lcd_show_string` returns. -/
theorem character_ops_forall (P : Event → Prop) (p : Platform)
    (hchr : ∀ d : Nat, d < 256 → ∀ e ∈ lcd_send p d LCD_MODE_CHARACTER, P e) :
    (∀ c : Int, ∀ e ∈ lcd_show_char p c, P e)
      ∧ (∀ (str : List Int) (t : List Event), lcd_show_string p str = some t → ∀ e ∈ t, P e) := by
  have hchar : ∀ c : Int, ∀ e ∈ lcd_show_char p c, P e := fun c => hchr _ (u8_lt _)
  refine ⟨hchar, ?_⟩
  intro str
  induction str with
  | nil => intro t ht; simp [lcd_show_string] at ht
  | cons c str ih =>
    intro t ht e he
    unfold lcd_show_string at ht
    by_cases hc : c = 0
    · simp [hc] at ht
      subst ht
      simp at he
    · simp only [hc, if_false, Option.map_eq_some'] at ht
      obtain ⟨t2, ht2, rfl⟩ := ht
      rcases List.mem_append.mp he with he | he
      · exact hchar c e he
      · exact ih t2 ht2 e he

/-- What holds of every event of every send and of the bus and pin configuration holds of
every event of `main`. -/
theorem main_forall (P : Event → Prop) (p : Platform)
    (hcmd : ∀ d : Nat, d < 256 → ∀ e ∈ lcd_send p d LCD_MODE_COMMAND, P e)
    (hchr : ∀ d : Nat, d < 256 → ∀ e ∈ lcd_send p d LCD_MODE_CHARACTER, P e)
    (hcfg : ∀ sda scl : Nat, ∀ e ∈ main_config sda scl, P e) :
    ∀ t, main p = some t → ∀ e ∈ t, P e := by
  obtain ⟨_, hcur, hinit⟩ := command_ops_forall P p hcmd
  obtain ⟨_, hstr⟩ := character_ops_forall P p hchr
  intro t ht e he
  unfold main at ht
  split at ht
  · rename_i sda scl _ _ _
    cases h0 : lcd_show_string p (c_string "Flores Dominguez") with
    | none => simp [h0] at ht
    | some line0 =>
      cases h1 : lcd_show_string p (c_string "Eduardo") with
      | none => simp [h0, h1] at ht
      | some line1 =>
        simp only [h0, h1, Option.some_bind, Option.some.injEq] at ht
        subst ht
        simp only [List.mem_append] at he
        rcases he with ((((he | he) | he) | he) | he) | he
        · exact hcfg sda scl e he
        · exact hinit e he
        · exact hcur 0 3 e he
        · exact hstr _ _ h0 e he
        · exact hcur 1 3 e he
        · exact hstr _ _ h1 e he
  · simp at ht
    subst ht
    simp at he

theorem bus_writes_main_config (sda scl : Nat) : bus_writes (main_config sda scl) = [] := rfl

theorem backlight_nibble (x : Int) :
    (u8 (int_or x LCD_OPT_BACKLIGHT)).testBit 3 = true := by
  have h8 : int_bits LCD_OPT_BACKLIGHT = 8 := by decide
  have h256 : (256 : Nat) = 2 ^ 8 := by norm_num
  have hb : Nat.testBit 8 3 = true := by decide
  rw [int_or, u8_int_of_bits, h8, h256, Nat.testBit_mod_two_pow, Nat.testBit_or, hb]
  simp

theorem backlight_kept :
    ∀ h : Nat, h < 256 → h.testBit 3 = true →
      h &&& 0x08 = 0x08 ∧ (h ||| 4) &&& 0x08 = 0x08 ∧ (h &&& 251) &&& 0x08 = 0x08 := by
  decide

theorem backlight_send (p : Platform) (data : Nat) (mode : Int) :
    ∀ b ∈ bus_writes (lcd_send p data mode), b &&& 0x08 = 0x08 := by
  cases h : p.i2c_default with
  | false => simp [bus_writes_send_unconfigured p h]
  | true =>
    rw [bus_writes_send p h data mode (high_nibble_lt data mode) (low_nibble_lt data mode)]
    have hh := backlight_kept _ (high_nibble_lt data mode) (backlight_nibble _)
    have hl := backlight_kept _ (low_nibble_lt data mode) (backlight_nibble _)
    change high_nibble data mode &&& 0x08 = 0x08 ∧ _ at hh
    change low_nibble data mode &&& 0x08 = 0x08 ∧ _ at hl
    intro b hb
    simp only [List.mem_cons, List.mem_singleton, List.not_mem_nil, or_false] at hb
    rcases hb with rfl | rfl | rfl | rfl | rfl | rfl
    · exact hh.1
    · exact hh.2.1
    · exact hh.2.2
    · exact hl.1
    · exact hl.2.1
    · exact hl.2.2

theorem bus_writes_send_platform (p : Platform) (data : Nat) (mode : Int) :
    bus_writes (lcd_send p data mode)
      = if p.i2c_default then bus_writes (lcd_send pico data mode) else [] := by
  cases h : p.i2c_default with
  | false => simp [bus_writes_send_unconfigured p h]
  | true =>
    have hp : p.i2c_default = pico.i2c_default := h
    simp [lcd_send_congr p pico hp]

/-- Every event of a send is a 600us delay or a one-byte write to the display address. -/
theorem mem_lcd_send (p : Platform) (data : Nat) (mode : Int) :
    ∀ e ∈ lcd_send p data mode,
      e = Event.sleep_us 600 ∨ ∃ b, e = Event.i2c_write_blocking lcd_i2c_address [b] false := by
  intro e he
  cases h : p.i2c_default with
  | false =>
    simp [lcd_send, lcd_toggle, i2c_send_byte, sleep_us, h] at he
    exact Or.inl he
  | true =>
    simp only [lcd_send, lcd_toggle, i2c_send_byte, sleep_us, h, if_true, List.mem_append,
      List.mem_singleton] at he
    rcases he with (((he | (((he | he) | he) | he) | he)) | he) | (((he | he) | he) | he) | he
    all_goals first
      | exact Or.inl he
      | exact Or.inr ⟨_, he⟩

theorem mode_bit_command :
    ∀ d : Nat, d < 256 →
      ∀ b ∈ bus_writes (lcd_send pico d LCD_MODE_COMMAND), b.testBit 0 = false := by
  decide

theorem mode_bit_character :
    ∀ d : Nat, d < 256 →
      ∀ b ∈ bus_writes (lcd_send pico d LCD_MODE_CHARACTER), b.testBit 0 = true := by
  decide

theorem enable_clear_in_nibbles_command :
    ∀ d : Nat, d < 256 →
      high_nibble d LCD_MODE_COMMAND &&& 0x04 = 0 ∧ low_nibble d LCD_MODE_COMMAND &&& 0x04 = 0 := by
  decide

theorem enable_clear_in_nibbles_character :
    ∀ d : Nat, d < 256 →
      high_nibble d LCD_MODE_CHARACTER &&& 0x04 = 0
      ∧ low_nibble d LCD_MODE_CHARACTER &&& 0x04 = 0 := by
  decide

theorem pulse_restores :
    ∀ h : Nat, h < 256 → h &&& 0x04 = 0 →
      h &&& 251 = h ∧ h.testBit 2 = false ∧ (h ||| 4).testBit 2 = true := by
  decide

theorem lcd_show_string_of_zero_mem (p : Platform) (buf : List Int) (h : (0 : Int) ∈ buf) :
    ∃ t, lcd_show_string p buf = some t := by
  induction buf with
  | nil => simp at h
  | cons c str ih =>
    by_cases hc : c = 0
    · exact ⟨[], by simp [lcd_show_string, hc]⟩
    · have hmem : (0 : Int) ∈ str := by
        rcases List.mem_cons.mp h with h0 | h0
        · exact absurd h0.symm hc
        · exact h0
      obtain ⟨t, ht⟩ := ih hmem
      exact ⟨lcd_show_char p c ++ t, by simp [lcd_show_string, hc, ht]⟩

theorem bus_writes_flatten_sends_length (p : Platform) (h : p.i2c_default = true)
    (l : List (Nat × Int)) :
    (bus_writes ((l.map (fun dm => lcd_send p dm.1 dm.2)).flatten)).length = 6 * l.length := by
  induction l with
  | nil => rfl
  | cons a l ih =>
    simp only [List.map_cons, List.flatten_cons, bus_writes_append, List.length_append,
      bus_writes_send_length p h, ih, List.length_cons]
    ring

theorem u8_int_add (a b : Int) : u8 (int_add a b) = ((a + b) % 256).toNat := by
  rw [int_add, u8_int_of_bits, int_bits_mod]
  rfl

theorem cursor_bytes_value :
    ∀ l : Nat, l < 2 → ∀ c : Nat, c < 16 →
      u8 (cursor_address (l : Int) (c : Int)) = (if l = 0 then 0x80 + c else 0xC0 + c) := by
  decide

theorem cursor_bytes_injective (l c l2 c2 : Nat) (hl : l < 2) (hc : c < 16) (hl2 : l2 < 2)
    (hc2 : c2 < 16)
    (h : u8 (cursor_address (l : Int) (c : Int)) = u8 (cursor_address (l2 : Int) (c2 : Int))) :
    l = l2 ∧ c = c2 := by
  rw [cursor_bytes_value l hl c hc, cursor_bytes_value l2 hl2 c2 hc2] at h
  split_ifs at h <;> omega

theorem cursor_bytes_range :
    ∀ c : Nat, c < 16 →
      (u8 (cursor_address 0 (c : Int))).testBit 7 = true
      ∧ (u8 (cursor_address 1 (c : Int))).testBit 7 = true
      ∧ 0x80 ≤ u8 (cursor_address 0 (c : Int)) ∧ u8 (cursor_address 0 (c : Int)) ≤ 0x8F
      ∧ 0xC0 ≤ u8 (cursor_address 1 (c : Int)) ∧ u8 (cursor_address 1 (c : Int)) ≤ 0xCF := by
  decide

/-- The trace of `main` on a fully configured platform. -/
theorem main_configured_trace (p : Platform) (sda scl : Nat)
    (hbus : p.i2c_default = true)
    (hsda : p.PICO_DEFAULT_I2C_SDA_PIN = some sda)
    (hscl : p.PICO_DEFAULT_I2C_SCL_PIN = some scl) :
    main p
      = some (main_config sda scl
          ++ ( lcd_initialize p
            ++ lcd_set_cursor p 0 3
            ++ ("Flores Dominguez".toList.map
                  (fun ch => lcd_send p ch.toNat LCD_MODE_CHARACTER)).flatten
            ++ lcd_set_cursor p 1 3
            ++ ("Eduardo".toList.map
                  (fun ch => lcd_send p ch.toNat LCD_MODE_CHARACTER)).flatten)) := by
  have h0 := lcd_show_string_literal p "Flores Dominguez" (by decide) (by decide)
  have h1 := lcd_show_string_literal p "Eduardo" (by decide) (by decide)
  unfold main
  rw [hbus, hsda, hscl]
  simp only [h0, h1, Option.some_bind, List.append_assoc]

/-! ## Nibble transmission and the enable latch -/

/-- C1: for every byte `b` and mode COMMAND or CHARACTER, `lcd_send` is exactly two nibble
transfers (the high nibble byte sent and latched, then the low nibble byte sent and
latched), and the top four bits of the high nibble byte joined with the top four bits of
the low nibble byte give back `b`. -/
theorem lcd_send_two_nibbles_reconstruct (p : Platform) (b : Nat) (mode : Int)
    (hb : b < 256) (hm : mode = LCD_MODE_COMMAND ∨ mode = LCD_MODE_CHARACTER) :
    lcd_send p b mode
        = (i2c_send_byte p (high_nibble b mode) ++ lcd_toggle p (high_nibble b mode))
          ++ (i2c_send_byte p (low_nibble b mode) ++ lcd_toggle p (low_nibble b mode))
      ∧ (high_nibble b mode &&& 0xF0) ||| (low_nibble b mode >>> 4) = b := by
  refine ⟨by simp [lcd_send], ?_⟩
  rcases hm with rfl | rfl
  · exact nibbles_reconstruct_command b hb
  · exact nibbles_reconstruct_character b hb

theorem lcd_send_two_nibbles_reconstruct_witness :
    lcd_send pico 0x41 LCD_MODE_CHARACTER
        = (i2c_send_byte pico 0x49 ++ lcd_toggle pico 0x49)
          ++ (i2c_send_byte pico 0x19 ++ lcd_toggle pico 0x19)
      ∧ (0x49 &&& 0xF0) ||| (0x19 >>> 4) = 0x41 :=
  lcd_send_two_nibbles_reconstruct pico 0x41 LCD_MODE_CHARACTER (by decide) (Or.inr rfl)

/-- C2: for every byte `data` and mode 0 or 1, the two nibble bytes of `lcd_send` are
`mode | (data & 0xF0) | 0x08` and `mode | ((data << 4) & 0xF0) | 0x08` as 8-bit values, the
send is the high byte, its latch, the low byte, its latch, in that order, and on a
configured bus the six bytes written are high, high with enable set, high with enable
cleared, low, low with enable set, low with enable cleared. -/
theorem lcd_send_nibbles_and_writes (p : Platform) (data : Nat) (mode : Int)
    (hd : data < 256) (hm : mode = 0 ∨ mode = 1) :
    high_nibble data mode = (mode.toNat ||| (data &&& 0xF0) ||| 0x08) % 256
      ∧ low_nibble data mode = (mode.toNat ||| ((data <<< 4) &&& 0xF0) ||| 0x08) % 256
      ∧ lcd_send p data mode
          = i2c_send_byte p (high_nibble data mode) ++ lcd_toggle p (high_nibble data mode)
            ++ i2c_send_byte p (low_nibble data mode) ++ lcd_toggle p (low_nibble data mode)
      ∧ (p.i2c_default = true →
          bus_writes (lcd_send p data mode)
            = [high_nibble data mode, high_nibble data mode ||| 0x04,
               high_nibble data mode &&& 0xFB,
               low_nibble data mode, low_nibble data mode ||| 0x04,
               low_nibble data mode &&& 0xFB]) := by
  rcases hm with rfl | rfl
  · refine ⟨(nibble_formulas_command data hd).1, (nibble_formulas_command data hd).2, rfl, ?_⟩
    intro h
    exact bus_writes_send p h data 0 (nibble_lt_command data hd).1 (nibble_lt_command data hd).2
  · refine ⟨(nibble_formulas_character data hd).1, (nibble_formulas_character data hd).2,
      rfl, ?_⟩
    intro h
    exact bus_writes_send p h data 1 (nibble_lt_character data hd).1
      (nibble_lt_character data hd).2

theorem lcd_send_nibbles_and_writes_witness :
    high_nibble 0x41 1 = 0x49 ∧ low_nibble 0x41 1 = 0x19
      ∧ bus_writes (lcd_send pico 0x41 1) = [0x49, 0x4D, 0x49, 0x19, 0x1D, 0x19] := by
  have h := lcd_send_nibbles_and_writes pico 0x41 1 (by decide) (Or.inr rfl)
  refine ⟨by decide, by decide, ?_⟩
  have hw := h.2.2.2 rfl
  rw [hw]
  decide

/-- C3: for every byte `v`, `lcd_toggle v` calls the bus transport exactly twice, between
its three delays; the first byte is `v` with the enable bit (bit 2, 0x04) set, the second
is `v` with the enable bit cleared, and both agree with `v`, hence with each other, on every
other bit, in particular on the upper four bits. -/
theorem lcd_toggle_two_writes (p : Platform) (v : Nat) (hv : v < 256) :
    lcd_toggle p v
        = sleep_us 600 ++ i2c_send_byte p (v ||| 0x04) ++ sleep_us 600
          ++ i2c_send_byte p (v &&& 0xFB) ++ sleep_us 600
      ∧ (p.i2c_default = true → bus_writes (lcd_toggle p v) = [v ||| 0x04, v &&& 0xFB])
      ∧ (v ||| 0x04).testBit 2 = true
      ∧ (v &&& 0xFB).testBit 2 = false
      ∧ (∀ i, i ≠ 2 →
          (v ||| 0x04).testBit i = v.testBit i ∧ (v &&& 0xFB).testBit i = v.testBit i)
      ∧ (v ||| 0x04) &&& 0xF0 = (v &&& 0xFB) &&& 0xF0 := by
  refine ⟨?_, fun h => bus_writes_toggle p h v hv, ?_, ?_, ?_, ?_⟩
  · simp [lcd_toggle, enable_set_byte v hv, enable_clear_byte v hv]
  · simpa using (enable_bits v hv 2).1
  · simpa using (enable_bits v hv 2).2
  · intro i hi
    have := enable_bits v hv i
    simpa [hi] using this
  · apply Nat.eq_of_testBit_eq
    intro i
    have := enable_bits v hv i
    by_cases hi : i = 2
    · subst hi
      have h240 : Nat.testBit 240 2 = false := by decide
      simp [Nat.testBit_and, h240]
    · simp only [hi, if_false] at this
      simp [Nat.testBit_and, this.1, this.2]

theorem lcd_toggle_two_writes_witness :
    bus_writes (lcd_toggle pico 0x49) = [0x4D, 0x49] := by
  have h := (lcd_toggle_two_writes pico 0x49 (by decide)).2.1 rfl
  rw [h]
  decide

/-! ## Display operations -/

/-- C4: `lcd_initialize` is exactly the seven command-mode sends of 0x03, 0x03, 0x03, 0x02,
0x04, 0x28, 0x0C followed by `lcd_clear`, itself the command-mode send of 0x01, in this
order with nothing before, between or after; on a configured bus the bytes written are
the 48 bytes listed. -/
theorem lcd_initialize_sequence (p : Platform) :
    lcd_initialize p
        = lcd_send p 0x03 LCD_MODE_COMMAND ++ lcd_send p 0x03 LCD_MODE_COMMAND
          ++ lcd_send p 0x03 LCD_MODE_COMMAND ++ lcd_send p 0x02 LCD_MODE_COMMAND
          ++ lcd_send p 0x04 LCD_MODE_COMMAND ++ lcd_send p 0x28 LCD_MODE_COMMAND
          ++ lcd_send p 0x0C LCD_MODE_COMMAND ++ lcd_clear p
      ∧ lcd_clear p = lcd_send p 0x01 LCD_MODE_COMMAND
      ∧ (p.i2c_default = true →
          bus_writes ( lcd_initialize p)
            = [0x08, 0x0C, 0x08, 0x38, 0x3C, 0x38,
               0x08, 0x0C, 0x08, 0x38, 0x3C, 0x38,
               0x08, 0x0C, 0x08, 0x38, 0x3C, 0x38,
               0x08, 0x0C, 0x08, 0x28, 0x2C, 0x28,
               0x08, 0x0C, 0x08, 0x48, 0x4C, 0x48,
               0x28, 0x2C, 0x28, 0x88, 0x8C, 0x88,
               0x08, 0x0C, 0x08, 0xC8, 0xCC, 0xC8,
               0x08, 0x0C, 0x08, 0x18, 0x1C, 0x18]) := by
  refine ⟨rfl, rfl, ?_⟩
  intro h
  have hp : p.i2c_default = pico.i2c_default := h
  unfold lcd_initialize lcd_clear
  simp only [lcd_send_congr p pico hp]
  decide

theorem lcd_initialize_sequence_witness :
    (bus_writes ( lcd_initialize pico)).length = 48 := by
  have h := (lcd_initialize_sequence pico).2.2 rfl
  rw [h]
  rfl

/-- C5: for every column `c` with `0 ≤ c ≤ 15`, `lcd_set_cursor 0 c` is exactly one
command-mode send of the byte `0x80 + c` and `lcd_set_cursor 1 c` exactly one command-mode
send of the byte `0xC0 + c`; both addresses are below 256, so narrowing the `int` address
to a byte loses nothing. -/
theorem lcd_set_cursor_address (p : Platform) (c : Int) (h0 : 0 ≤ c) (h15 : c ≤ 15) :
    lcd_set_cursor p 0 c = lcd_send p (0x80 + c).toNat LCD_MODE_COMMAND
      ∧ lcd_set_cursor p 1 c = lcd_send p (0xC0 + c).toNat LCD_MODE_COMMAND
      ∧ ((0x80 + c).toNat : Int) = 0x80 + c
      ∧ ((0xC0 + c).toNat : Int) = 0xC0 + c
      ∧ 0xC0 + c < 256 := by
  obtain ⟨n, rfl⟩ := Int.eq_ofNat_of_zero_le h0
  have hn : n < 16 := by omega
  have ha := cursor_address_byte n hn
  have e0 : ((0x80 : Int) + (n : Int)).toNat = 0x80 + n := by omega
  have e1 : ((0xC0 : Int) + (n : Int)).toNat = 0xC0 + n := by omega
  refine ⟨?_, ?_, by omega, by omega, by omega⟩
  · simp only [lcd_set_cursor, if_true, ha.1, e0]
  · have h10 : ¬ ((1 : Int) = 0) := by decide
    simp only [lcd_set_cursor, h10, if_false, ha.2, e1]

theorem lcd_set_cursor_address_witness :
    lcd_set_cursor pico 0 3 = lcd_send pico 0x83 LCD_MODE_COMMAND
      ∧ lcd_set_cursor pico 1 3 = lcd_send pico 0xC3 LCD_MODE_COMMAND :=
  ⟨(lcd_set_cursor_address pico 3 (by decide) (by decide)).1,
   (lcd_set_cursor_address pico 3 (by decide) (by decide)).2.1⟩

/-- C6: for every string `c1 ... cn` of non-zero characters followed by its terminating
zero, `lcd_show_string` returns, and its trace is the concatenation of exactly `n`
character-mode sends, one per character in string order, with nothing else in between. -/
theorem lcd_show_string_sends (p : Platform) (s : List Int) (hs : ∀ c ∈ s, c ≠ 0) :
    lcd_show_string p (s ++ [0])
        = some ((s.map (fun c => lcd_send p (u8 c) LCD_MODE_CHARACTER)).flatten)
      ∧ (s.map (fun c => lcd_send p (u8 c) LCD_MODE_CHARACTER)).length = s.length := by
  refine ⟨?_, by simp⟩
  have h := lcd_show_string_until_zero p s [] hs
  simpa [lcd_show_char] using h

theorem lcd_show_string_sends_witness :
    lcd_show_string pico (c_string "AB")
      = some (lcd_send pico 0x41 LCD_MODE_CHARACTER ++ lcd_send pico 0x42 LCD_MODE_CHARACTER) := by
  have h := (lcd_show_string_sends pico [0x41, 0x42] (by decide)).1
  have e : c_string "AB" = [0x41, 0x42] ++ [0] := by decide
  rw [e, h]
  simp [u8]

/-- C7: `lcd_clear` is exactly one command-mode send of the value 0x01 and nothing else; on a
configured bus its six bus bytes are 08 0C 08 18 1C 18. -/
theorem lcd_clear_single_send (p : Platform) :
    lcd_clear p = lcd_send p 0x01 LCD_MODE_COMMAND
      ∧ (p.i2c_default = true →
          bus_writes (lcd_clear p) = [0x08, 0x0C, 0x08, 0x18, 0x1C, 0x18]) := by
  refine ⟨rfl, ?_⟩
  intro h
  have hp : p.i2c_default = pico.i2c_default := h
  unfold lcd_clear
  rw [lcd_send_congr p pico hp]
  decide

theorem lcd_clear_single_send_witness :
    bus_writes (lcd_clear pico) = [0x08, 0x0C, 0x08, 0x18, 0x1C, 0x18] :=
  (lcd_clear_single_send pico).2 rfl

/-! ## Timing -/

/-- C8: for every byte `v`, on a configured bus the events of `lcd_toggle v` are exactly:
wait 600us, write `v` with enable set, wait 600us, write `v` with enable cleared,
wait 600us; five events, every wait at least 600us, and no two bus writes adjacent. -/
theorem lcd_toggle_event_sequence (p : Platform) (v : Nat) (hv : v < 256)
    (h : p.i2c_default = true) :
    lcd_toggle p v
        = [Event.sleep_us 600,
           Event.i2c_write_blocking lcd_i2c_address [v ||| 0x04] false,
           Event.sleep_us 600,
           Event.i2c_write_blocking lcd_i2c_address [v &&& 0xFB] false,
           Event.sleep_us 600]
      ∧ (lcd_toggle p v).length = 5
      ∧ (∀ us ∈ delays (lcd_toggle p v), 600 ≤ us)
      ∧ no_adjacent_writes (lcd_toggle p v) = true := by
  have e : lcd_toggle p v
        = [Event.sleep_us 600,
           Event.i2c_write_blocking lcd_i2c_address [v ||| 0x04] false,
           Event.sleep_us 600,
           Event.i2c_write_blocking lcd_i2c_address [v &&& 0xFB] false,
           Event.sleep_us 600] := by
    simp [lcd_toggle, sleep_us, i2c_send_byte_configured p h, enable_set_byte v hv,
      enable_clear_byte v hv]
  refine ⟨e, ?_, ?_, ?_⟩
  · rw [e]; rfl
  · rw [delays_toggle]
    intro us hus
    simp at hus
    omega
  · rw [e]; rfl

theorem lcd_toggle_event_sequence_witness :
    lcd_toggle pico 0x49
      = [Event.sleep_us 600,
         Event.i2c_write_blocking 0x27 [0x4D] false,
         Event.sleep_us 600,
         Event.i2c_write_blocking 0x27 [0x49] false,
         Event.sleep_us 600] := by
  have h := (lcd_toggle_event_sequence pico 0x49 (by decide) rfl).1
  rw [h]
  decide

/-- C9: for every byte and mode, on every platform, one `lcd_send` contains exactly six
delays of 600us, so its total delay is 3600us; a sequence of `k` sends has total delay
`k * 3600`us, and so has `lcd_show_string` on a string of `k` characters. -/
theorem lcd_send_delay_budget (p : Platform) (data : Nat) (mode : Int) :
    delays (lcd_send p data mode) = [600, 600, 600, 600, 600, 600]
      ∧ total_delay (lcd_send p data mode) = 3600
      ∧ (∀ l : List (Nat × Int),
          total_delay ((l.map (fun dm => lcd_send p dm.1 dm.2)).flatten) = l.length * 3600)
      ∧ (∀ s : List Int, (∀ c ∈ s, c ≠ 0) →
          ∃ t, lcd_show_string p (s ++ [0]) = some t ∧ total_delay t = s.length * 3600) := by
  refine ⟨delays_send p data mode, total_delay_send p data mode,
    total_delay_flatten_sends p, ?_⟩
  intro s hs
  refine ⟨_, lcd_show_string_until_zero p s [] hs, ?_⟩
  have h := total_delay_flatten_sends p (s.map (fun c => (u8 c, LCD_MODE_CHARACTER)))
  simpa [lcd_show_char, List.map_map, Function.comp_def] using h

theorem lcd_send_delay_budget_witness :
    ∃ t, lcd_show_string pico (c_string "AB") = some t ∧ total_delay t = 2 * 3600 :=
  (lcd_send_delay_budget pico 0 0).2.2.2 [0x41, 0x42] (by decide)

/-! ## The main sequence -/

/-- C10: when the default bus and both default pins are configured, `main` performs the
bus and pin configuration and then exactly: `lcd_initialize`, `lcd_set_cursor 0 3`, the
sixteen character sends of "Flores Dominguez", `lcd_set_cursor 1 3`, the seven
character sends of "Eduardo"; nothing else follows, and the configuration part writes
nothing on the bus. -/
theorem main_display_sequence (p : Platform) (sda scl : Nat)
    (hbus : p.i2c_default = true)
    (hsda : p.PICO_DEFAULT_I2C_SDA_PIN = some sda)
    (hscl : p.PICO_DEFAULT_I2C_SCL_PIN = some scl) :
    main p
        = some (main_config sda scl
            ++ ( lcd_initialize p
              ++ lcd_set_cursor p 0 3
              ++ ("Flores Dominguez".toList.map
                    (fun ch => lcd_send p ch.toNat LCD_MODE_CHARACTER)).flatten
              ++ lcd_set_cursor p 1 3
              ++ ("Eduardo".toList.map
                    (fun ch => lcd_send p ch.toNat LCD_MODE_CHARACTER)).flatten))
      ∧ lcd_show_string p (c_string "Flores Dominguez")
          = some (("Flores Dominguez".toList.map
                    (fun ch => lcd_send p ch.toNat LCD_MODE_CHARACTER)).flatten)
      ∧ lcd_show_string p (c_string "Eduardo")
          = some (("Eduardo".toList.map
                    (fun ch => lcd_send p ch.toNat LCD_MODE_CHARACTER)).flatten)
      ∧ "Flores Dominguez".toList.length = 16
      ∧ "Eduardo".toList.length = 7
      ∧ bus_writes (main_config sda scl) = []
      ∧ delays (main_config sda scl) = [] := by
  have h0 := lcd_show_string_literal p "Flores Dominguez" (by decide) (by decide)
  have h1 := lcd_show_string_literal p "Eduardo" (by decide) (by decide)
  refine ⟨?_, h0, h1, by decide, by decide, rfl, rfl⟩
  unfold main
  rw [hbus, hsda, hscl]
  simp only [h0, h1, Option.some_bind, List.append_assoc]

theorem main_display_sequence_witness :
    (main pico).map (fun t => (bus_writes t).length) = some (6 * (8 + 1 + 16 + 1 + 7)) := by
  have h := (main_display_sequence pico 4 5 rfl rfl rfl).1
  rw [h]
  decide

/-! ## Invariants of the bus bytes -/

/-- C11: the backlight is always on. For every byte `data` and every mode, every bus byte
written by `lcd_send` has the backlight bit (0x08) set, and so has every bus byte written
by `lcd_clear`, `lcd_set_cursor`, `lcd_show_char`, `lcd_show_string`, `lcd_initialize` and
`main`; on a configured bus a send writes six such bytes. -/
theorem backlight_always_on (p : Platform) (data : Nat) (mode : Int) :
    (∀ b ∈ bus_writes (lcd_send p data mode), b &&& 0x08 = 0x08)
      ∧ (p.i2c_default = true → (bus_writes (lcd_send p data mode)).length = 6)
      ∧ (∀ b ∈ bus_writes (lcd_clear p), b &&& 0x08 = 0x08)
      ∧ (∀ line pos : Int, ∀ b ∈ bus_writes (lcd_set_cursor p line pos), b &&& 0x08 = 0x08)
      ∧ (∀ c : Int, ∀ b ∈ bus_writes (lcd_show_char p c), b &&& 0x08 = 0x08)
      ∧ (∀ (str : List Int) (t : List Event), lcd_show_string p str = some t →
          ∀ b ∈ bus_writes t, b &&& 0x08 = 0x08)
      ∧ (∀ b ∈ bus_writes ( lcd_initialize p), b &&& 0x08 = 0x08)
      ∧ (∀ t, main p = some t → ∀ b ∈ bus_writes t, b &&& 0x08 = 0x08) := by
  have hsend : ∀ (d : Nat) (m : Int), d < 256 →
      ∀ e ∈ lcd_send p d m, ∀ b ∈ bus_writes [e], b &&& 0x08 = 0x08 := fun d m _ =>
    (bus_writes_forall_iff _ _).mp (backlight_send p d m)
  have hcmd := command_ops_forall (fun e => ∀ b ∈ bus_writes [e], b &&& 0x08 = 0x08) p
    (fun d hd => hsend d LCD_MODE_COMMAND hd)
  have hchr := character_ops_forall (fun e => ∀ b ∈ bus_writes [e], b &&& 0x08 = 0x08) p
    (fun d hd => hsend d LCD_MODE_CHARACTER hd)
  have hmain := main_forall (fun e => ∀ b ∈ bus_writes [e], b &&& 0x08 = 0x08) p
    (fun d hd => hsend d LCD_MODE_COMMAND hd) (fun d hd => hsend d LCD_MODE_CHARACTER hd)
    (fun sda scl => (bus_writes_forall_iff _ _).mp (by simp [bus_writes_main_config]))
  refine ⟨backlight_send p data mode, fun h => bus_writes_send_length p h data mode,
    (bus_writes_forall_iff _ _).mpr hcmd.1,
    fun line pos => (bus_writes_forall_iff _ _).mpr (hcmd.2.1 line pos),
    fun c => (bus_writes_forall_iff _ _).mpr (hchr.1 c),
    fun str t ht => (bus_writes_forall_iff _ _).mpr (hchr.2 str t ht),
    (bus_writes_forall_iff _ _).mpr hcmd.2.2,
    fun t ht => (bus_writes_forall_iff _ _).mpr (hmain t ht)⟩

theorem backlight_always_on_witness :
    0x4D ∈ bus_writes (lcd_send pico 0x41 LCD_MODE_CHARACTER) ∧ 0x4D &&& 0x08 = 0x08 :=
  ⟨by decide, (backlight_always_on pico 0x41 LCD_MODE_CHARACTER).1 0x4D (by decide)⟩

/-! ## The bus transport and the configuration guard -/

/-- C12: for every byte `value`, `i2c_send_byte` is exactly one bus write of the one byte
`value` to the fixed address 0x27 when the default bus is configured, and does nothing
when it is not; hence every bus write of `lcd_toggle`, `lcd_send`, `lcd_clear`,
`lcd_set_cursor`, `lcd_show_char`, `lcd_show_string`, `lcd_initialize` and `main` is a
one-byte write to address 0x27. -/
theorem i2c_send_byte_fixed_address (p : Platform) (value : Nat) :
    (p.i2c_default = true →
        i2c_send_byte p value = [Event.i2c_write_blocking 0x27 [value] false])
      ∧ (p.i2c_default = false → i2c_send_byte p value = [])
      ∧ (∀ e ∈ lcd_toggle p value, ∀ a, write_address e = some a → a = 0x27)
      ∧ (∀ mode : Int, ∀ e ∈ lcd_send p value mode,
          (∀ a, write_address e = some a → a = 0x27)
            ∧ (∀ n, write_length e = some n → n = 1))
      ∧ (∀ e ∈ lcd_clear p, ∀ a, write_address e = some a → a = 0x27)
      ∧ (∀ line pos : Int, ∀ e ∈ lcd_set_cursor p line pos,
          ∀ a, write_address e = some a → a = 0x27)
      ∧ (∀ c : Int, ∀ e ∈ lcd_show_char p c, ∀ a, write_address e = some a → a = 0x27)
      ∧ (∀ (str : List Int) (t : List Event), lcd_show_string p str = some t →
          ∀ e ∈ t, ∀ a, write_address e = some a → a = 0x27)
      ∧ (∀ e ∈ lcd_initialize p, ∀ a, write_address e = some a → a = 0x27)
      ∧ (∀ t, main p = some t → ∀ e ∈ t, ∀ a, write_address e = some a → a = 0x27) := by
  have hsend : ∀ (d : Nat) (m : Int), ∀ e ∈ lcd_send p d m,
      (∀ a, write_address e = some a → a = 0x27)
        ∧ (∀ n, write_length e = some n → n = 1) := by
    intro d m e he
    rcases mem_lcd_send p d m e he with rfl | ⟨b, rfl⟩
    · exact ⟨fun a ha => by simp [write_address] at ha,
        fun n hn => by simp [write_length] at hn⟩
    · refine ⟨fun a ha => ?_, fun n hn => ?_⟩
      · simp only [write_address, Option.some.injEq] at ha
        rw [← ha]
        rfl
      · simp only [write_length, Option.some.injEq, List.length_singleton] at hn
        exact hn.symm
  have hcmd := command_ops_forall (fun e => ∀ a, write_address e = some a → a = 0x27) p
    (fun d _ e he => (hsend d LCD_MODE_COMMAND e he).1)
  have hchr := character_ops_forall (fun e => ∀ a, write_address e = some a → a = 0x27) p
    (fun d _ e he => (hsend d LCD_MODE_CHARACTER e he).1)
  have hmain := main_forall (fun e => ∀ a, write_address e = some a → a = 0x27) p
    (fun d _ e he => (hsend d LCD_MODE_COMMAND e he).1)
    (fun d _ e he => (hsend d LCD_MODE_CHARACTER e he).1)
    (by
      intro sda scl e he a ha
      simp only [main_config, List.mem_cons, List.mem_singleton, List.not_mem_nil,
        or_false] at he
      rcases he with rfl | rfl | rfl | rfl | rfl <;> simp [write_address] at ha)
  refine ⟨fun h => i2c_send_byte_configured p h value, fun h => by simp [i2c_send_byte, h],
    ?_, hsend value, hcmd.1, hcmd.2.1, hchr.1, hchr.2, hcmd.2.2, hmain⟩
  intro e he a ha
  cases h : p.i2c_default with
  | false =>
    simp [lcd_toggle, i2c_send_byte, sleep_us, h] at he
    subst he
    simp [write_address] at ha
  | true =>
    simp only [lcd_toggle, i2c_send_byte, sleep_us, h, if_true, List.mem_append,
      List.mem_singleton] at he
    rcases he with (((rfl | rfl) | rfl) | rfl) | rfl
    all_goals first
      | (simp [write_address] at ha; done)
      | (simp only [write_address, Option.some.injEq] at ha; rw [← ha]; rfl)

theorem i2c_send_byte_fixed_address_witness :
    i2c_send_byte pico 0x49 = [Event.i2c_write_blocking 0x27 [0x49] false]
      ∧ i2c_send_byte no_i2c 0x49 = [] :=
  ⟨(i2c_send_byte_fixed_address pico 0x49).1 rfl,
   (i2c_send_byte_fixed_address no_i2c 0x49).2.1 rfl⟩

/-- C13: if the default I2C bus, the default SDA pin or the default SCL pin is not defined,
`main` performs no hardware interaction: its trace is empty, so there is no bus
configuration, no bus write and no delay. -/
theorem main_unconfigured_empty (p : Platform)
    (h : p.i2c_default = false ∨ p.PICO_DEFAULT_I2C_SDA_PIN = none
      ∨ p.PICO_DEFAULT_I2C_SCL_PIN = none) :
    main p = some [] := by
  unfold main
  split
  · rename_i sda scl hb hsda hscl
    rcases h with h | h | h
    · rw [h] at hb; cases hb
    · rw [h] at hsda; cases hsda
    · rw [h] at hscl; cases hscl
  · rfl

theorem main_unconfigured_empty_witness :
    main no_i2c = some []
      ∧ main { i2c_default := true, PICO_DEFAULT_I2C_SDA_PIN := none,
               PICO_DEFAULT_I2C_SCL_PIN := some 5 } = some [] :=
  ⟨main_unconfigured_empty no_i2c (Or.inl rfl),
   main_unconfigured_empty _ (Or.inr (Or.inl rfl))⟩

/-! ## Enable pulses and the mode bit -/

/-- C14: within one `lcd_send` with mode 0 or 1 each nibble gets exactly one enable pulse:
the nibble bytes have the enable bit (0x04) clear, the six bus writes are high,
high with enable, high, low, low with enable, low, the enable bit over them reads
0,1,0,0,1,0, and exactly two writes have it set. -/
theorem lcd_send_one_pulse_per_nibble (p : Platform) (data : Nat) (mode : Int)
    (hd : data < 256) (hm : mode = 0 ∨ mode = 1) (hbus : p.i2c_default = true) :
    high_nibble data mode &&& 0x04 = 0
      ∧ low_nibble data mode &&& 0x04 = 0
      ∧ bus_writes (lcd_send p data mode)
          = [high_nibble data mode, high_nibble data mode ||| 0x04, high_nibble data mode,
             low_nibble data mode, low_nibble data mode ||| 0x04, low_nibble data mode]
      ∧ (bus_writes (lcd_send p data mode)).map (fun b => b.testBit 2)
          = [false, true, false, false, true, false]
      ∧ ((bus_writes (lcd_send p data mode)).filter (fun b => b.testBit 2)).length = 2 := by
  have hn : high_nibble data mode &&& 0x04 = 0 ∧ low_nibble data mode &&& 0x04 = 0 := by
    rcases hm with rfl | rfl
    · exact enable_clear_in_nibbles_command data hd
    · exact enable_clear_in_nibbles_character data hd
  have hh := pulse_restores _ (high_nibble_lt data mode) hn.1
  have hl := pulse_restores _ (low_nibble_lt data mode) hn.2
  have hw : bus_writes (lcd_send p data mode)
      = [high_nibble data mode, high_nibble data mode ||| 0x04, high_nibble data mode,
         low_nibble data mode, low_nibble data mode ||| 0x04, low_nibble data mode] := by
    rw [bus_writes_send p hbus data mode (high_nibble_lt data mode) (low_nibble_lt data mode),
      hh.1, hl.1]
  refine ⟨hn.1, hn.2, hw, ?_, ?_⟩
  · rw [hw]
    simp [hh.2.1, hh.2.2, hl.2.1, hl.2.2]
  · rw [hw]
    simp [List.filter, hh.2.1, hh.2.2, hl.2.1, hl.2.2]

theorem lcd_send_one_pulse_per_nibble_witness :
    bus_writes (lcd_send pico 0x41 1) = [0x49, 0x4D, 0x49, 0x19, 0x1D, 0x19] := by
  have h := (lcd_send_one_pulse_per_nibble pico 0x41 1 (by decide) (Or.inr rfl) rfl).2.2.1
  rw [h]
  decide

/-- C15: the mode bit (bit 0) of every bus byte is the mode of the send. For every byte
`data`, every bus byte of a command-mode send has bit 0 clear and every bus byte of a
character-mode send has bit 0 set; `lcd_show_char ch` is exactly one character-mode send
of `ch`, so its bus bytes have bit 0 set, and the bus bytes of `lcd_clear`,
`lcd_set_cursor` and `lcd_initialize` have bit 0 clear. -/
theorem mode_bit_reflects_mode (p : Platform) :
    (∀ data : Nat, data < 256 →
        ∀ b ∈ bus_writes (lcd_send p data LCD_MODE_COMMAND), b.testBit 0 = false)
      ∧ (∀ data : Nat, data < 256 →
        ∀ b ∈ bus_writes (lcd_send p data LCD_MODE_CHARACTER), b.testBit 0 = true)
      ∧ (∀ (data : Nat) (mode : Int), p.i2c_default = true →
        (bus_writes (lcd_send p data mode)).length = 6)
      ∧ (∀ ch : Int, lcd_show_char p ch = lcd_send p (u8 ch) LCD_MODE_CHARACTER)
      ∧ (∀ ch : Int, ∀ b ∈ bus_writes (lcd_show_char p ch), b.testBit 0 = true)
      ∧ (∀ b ∈ bus_writes (lcd_clear p), b.testBit 0 = false)
      ∧ (∀ line pos : Int, ∀ b ∈ bus_writes (lcd_set_cursor p line pos), b.testBit 0 = false)
      ∧ (∀ b ∈ bus_writes ( lcd_initialize p), b.testBit 0 = false) := by
  have h0 : ∀ data : Nat, data < 256 →
      ∀ b ∈ bus_writes (lcd_send p data LCD_MODE_COMMAND), b.testBit 0 = false := by
    intro data hd b hb
    rw [bus_writes_send_platform] at hb
    cases h : p.i2c_default with
    | false => simp [h] at hb
    | true =>
      simp only [h, if_true] at hb
      exact mode_bit_command data hd b hb
  have h1 : ∀ data : Nat, data < 256 →
      ∀ b ∈ bus_writes (lcd_send p data LCD_MODE_CHARACTER), b.testBit 0 = true := by
    intro data hd b hb
    rw [bus_writes_send_platform] at hb
    cases h : p.i2c_default with
    | false => simp [h] at hb
    | true =>
      simp only [h, if_true] at hb
      exact mode_bit_character data hd b hb
  have hcmd := command_ops_forall (fun e => ∀ b ∈ bus_writes [e], b.testBit 0 = false) p
    (fun d hd => (bus_writes_forall_iff _ _).mp (h0 d hd))
  refine ⟨h0, h1, fun data mode h => bus_writes_send_length p h data mode, fun ch => rfl,
    fun ch => h1 _ (u8_lt ch),
    (bus_writes_forall_iff _ _).mpr hcmd.1,
    fun line pos => (bus_writes_forall_iff _ _).mpr (hcmd.2.1 line pos),
    (bus_writes_forall_iff _ _).mpr hcmd.2.2⟩

theorem mode_bit_reflects_mode_witness :
    0x4D ∈ bus_writes (lcd_send pico 0x41 LCD_MODE_CHARACTER) ∧ Nat.testBit 0x4D 0 = true :=
  ⟨by decide, (mode_bit_reflects_mode pico).2.1 0x41 (by decide) 0x4D (by decide)⟩

/-! ## String termination and the cursor address map -/

/-- C16: `lcd_show_string` returns on every buffer that contains a zero and stops at the
first one. If the first zero is at index `n` (after the non-zero characters `pre`),
exactly the `n` characters before it are sent, in order, which is `6 * n` bus writes on
a configured bus; what follows the zero has no effect; and the empty string gives the
empty trace (no bus write, no delay). -/
theorem lcd_show_string_stops_at_first_zero (p : Platform) (pre post : List Int)
    (hpre : ∀ c ∈ pre, c ≠ 0) :
    lcd_show_string p (pre ++ 0 :: post)
        = some ((pre.map (fun c => lcd_send p (u8 c) LCD_MODE_CHARACTER)).flatten)
      ∧ (pre ++ 0 :: post).indexOf 0 = pre.length
      ∧ lcd_show_string p (pre ++ 0 :: post) = lcd_show_string p (pre ++ [0])
      ∧ (p.i2c_default = true →
          (bus_writes ((pre.map (fun c => lcd_send p (u8 c) LCD_MODE_CHARACTER)).flatten)).length
            = 6 * pre.length)
      ∧ (∀ buf : List Int, (0 : Int) ∈ buf → ∃ t, lcd_show_string p buf = some t)
      ∧ lcd_show_string p (0 :: post) = some [] := by
  have h1 := lcd_show_string_until_zero p pre post hpre
  have h2 := lcd_show_string_until_zero p pre [] hpre
  have hidx : (pre ++ 0 :: post).indexOf 0 = pre.length := by
    have hn : (0 : Int) ∉ pre := fun h => hpre 0 h rfl
    rw [List.indexOf_append_of_not_mem hn]
    simp
  refine ⟨by simpa [lcd_show_char] using h1, hidx, by rw [h1, h2], ?_,
    lcd_show_string_of_zero_mem p, by simp [lcd_show_string]⟩
  intro h
  have hl := bus_writes_flatten_sends_length p h
    (pre.map (fun c => (u8 c, LCD_MODE_CHARACTER)))
  simpa [List.map_map, Function.comp_def] using hl

theorem lcd_show_string_stops_at_first_zero_witness :
    lcd_show_string pico [0x41, 0x42, 0, 0x43]
      = some (lcd_send pico 0x41 LCD_MODE_CHARACTER ++ lcd_send pico 0x42 LCD_MODE_CHARACTER) := by
  have h := (lcd_show_string_stops_at_first_zero pico [0x41, 0x42] [0x43] (by decide)).1
  have e : ([0x41, 0x42, 0, 0x43] : List Int) = [0x41, 0x42] ++ 0 :: [0x43] := rfl
  rw [e, h]
  simp [u8]

/-- C17: over the valid geometry (line 0 or 1, column 0 to 15) the command byte that
`lcd_set_cursor` sends determines the position: two positions with the same byte are the
same position. Every such byte has bit 7 set; the bytes of line 0 lie in 0x80..0x8F and
those of line 1 in 0xC0..0xCF. -/
theorem cursor_address_map_injective (p : Platform) (line c line2 c2 : Int)
    (hl : 0 ≤ line ∧ line < LCD_MAX_LINES) (hc : 0 ≤ c ∧ c < LCD_MAX_COLUMNS)
    (hl2 : 0 ≤ line2 ∧ line2 < LCD_MAX_LINES) (hc2 : 0 ≤ c2 ∧ c2 < LCD_MAX_COLUMNS) :
    lcd_set_cursor p line c = lcd_send p (u8 (cursor_address line c)) LCD_MODE_COMMAND
      ∧ (u8 (cursor_address line c) = u8 (cursor_address line2 c2) → line = line2 ∧ c = c2)
      ∧ (u8 (cursor_address line c)).testBit 7 = true
      ∧ (line = 0 → 0x80 ≤ u8 (cursor_address line c) ∧ u8 (cursor_address line c) ≤ 0x8F)
      ∧ (line = 1 → 0xC0 ≤ u8 (cursor_address line c) ∧ u8 (cursor_address line c) ≤ 0xCF) := by
  obtain ⟨hl0, hl1⟩ := hl
  obtain ⟨hc0, hc1⟩ := hc
  obtain ⟨hl20, hl21⟩ := hl2
  obtain ⟨hc20, hc21⟩ := hc2
  have hl1b : line < 2 := hl1
  have hc1b : c < 16 := hc1
  have hl21b : line2 < 2 := hl21
  have hc21b : c2 < 16 := hc21
  obtain ⟨l, rfl⟩ := Int.eq_ofNat_of_zero_le hl0
  obtain ⟨n, rfl⟩ := Int.eq_ofNat_of_zero_le hc0
  obtain ⟨l2, rfl⟩ := Int.eq_ofNat_of_zero_le hl20
  obtain ⟨n2, rfl⟩ := Int.eq_ofNat_of_zero_le hc20
  have hln : l < 2 := by omega
  have hnn : n < 16 := by omega
  have hl2n : l2 < 2 := by omega
  have hn2n : n2 < 16 := by omega
  have hr := cursor_bytes_range n hnn
  refine ⟨rfl, ?_, ?_, ?_, ?_⟩
  · intro h
    obtain ⟨e1, e2⟩ := cursor_bytes_injective l n l2 n2 hln hnn hl2n hn2n h
    subst e1
    subst e2
    exact ⟨rfl, rfl⟩
  · have hcases : l = 0 ∨ l = 1 := by omega
    rcases hcases with rfl | rfl
    · exact hr.1
    · exact hr.2.1
  · intro h0
    have : l = 0 := by omega
    subst this
    exact ⟨hr.2.2.1, hr.2.2.2.1⟩
  · intro h1
    have : l = 1 := by omega
    subst this
    exact ⟨hr.2.2.2.2.1, hr.2.2.2.2.2⟩

theorem cursor_address_map_injective_witness :
    lcd_set_cursor pico 1 3 = lcd_send pico 0xC3 LCD_MODE_COMMAND
      ∧ Nat.testBit 0xC3 7 = true :=
  ⟨(cursor_address_map_injective pico 1 3 0 3 (by decide) (by decide) (by decide)
      (by decide)).1,
   (cursor_address_map_injective pico 1 3 0 3 (by decide) (by decide) (by decide)
      (by decide)).2.2.1⟩

/-- C18: `lcd_set_cursor` neither rejects nor clamps its arguments. Every line other than 0
gives the trace of line 1; for every `pos` the byte sent is `(base + pos) mod 256` with
base 0x80 for line 0 and 0xC0 otherwise; so columns out of range alias positions in
range, for instance `lcd_set_cursor 0 (pos + 64)` has the trace of `lcd_set_cursor 1 pos`. -/
theorem lcd_set_cursor_unchecked (p : Platform) (line pos : Int) :
    (line ≠ 0 → lcd_set_cursor p line pos = lcd_set_cursor p 1 pos)
      ∧ lcd_set_cursor p 0 pos = lcd_send p ((0x80 + pos) % 256).toNat LCD_MODE_COMMAND
      ∧ (line ≠ 0 →
          lcd_set_cursor p line pos = lcd_send p ((0xC0 + pos) % 256).toNat LCD_MODE_COMMAND)
      ∧ lcd_set_cursor p 0 (pos + 64) = lcd_set_cursor p 1 pos := by
  have h10 : ¬ ((1 : Int) = 0) := by decide
  have e0 : ∀ x : Int, lcd_set_cursor p 0 x
      = lcd_send p ((0x80 + x) % 256).toNat LCD_MODE_COMMAND := by
    intro x
    simp only [lcd_set_cursor, if_true, u8_int_add]
  have e1 : ∀ l x : Int, l ≠ 0 → lcd_set_cursor p l x
      = lcd_send p ((0xC0 + x) % 256).toNat LCD_MODE_COMMAND := by
    intro l x hl
    simp only [lcd_set_cursor, hl, if_false, u8_int_add]
  refine ⟨fun hl => by rw [e1 line pos hl, e1 1 pos h10], e0 pos, e1 line pos, ?_⟩
  rw [e0, e1 1 pos h10]
  have hb : ((0x80 + (pos + 64)) % 256).toNat = ((0xC0 + pos) % 256).toNat := by omega
  rw [hb]

theorem lcd_set_cursor_unchecked_witness :
    lcd_set_cursor pico 2 5 = lcd_set_cursor pico 1 5
      ∧ lcd_set_cursor pico (-1) 5 = lcd_send pico 0xC5 LCD_MODE_COMMAND :=
  ⟨(lcd_set_cursor_unchecked pico 2 5).1 (by decide),
   (lcd_set_cursor_unchecked pico (-1) 5).2.2.1 (by decide)⟩

/-- C19: the text `main` writes on line 0 does not fit the declared 16 columns. `main`
sets the cursor to line 0 column 3 and sends the 16 characters of "Flores Dominguez", so
start column plus length is 19, above `LCD_MAX_COLUMNS` = 16, and the characters of index
13, 14, 15 fall on columns 16, 17, 18; "Eduardo", 7 characters from column 3 of line 1,
ends at 10 and fits. -/
theorem main_line0_text_exceeds_columns (p : Platform) (sda scl : Nat)
    (hbus : p.i2c_default = true)
    (hsda : p.PICO_DEFAULT_I2C_SDA_PIN = some sda)
    (hscl : p.PICO_DEFAULT_I2C_SCL_PIN = some scl) :
    main p
        = some (main_config sda scl
            ++ ( lcd_initialize p
              ++ lcd_set_cursor p 0 3
              ++ ("Flores Dominguez".toList.map
                    (fun ch => lcd_send p ch.toNat LCD_MODE_CHARACTER)).flatten
              ++ lcd_set_cursor p 1 3
              ++ ("Eduardo".toList.map
                    (fun ch => lcd_send p ch.toNat LCD_MODE_CHARACTER)).flatten))
      ∧ LCD_MAX_COLUMNS = 16
      ∧ (3 : Int) + ("Flores Dominguez".toList.length : Int) = 19
      ∧ LCD_MAX_COLUMNS < 3 + ("Flores Dominguez".toList.length : Int)
      ∧ (List.range "Flores Dominguez".toList.length).filter
            (fun i => decide (LCD_MAX_COLUMNS ≤ 3 + (i : Int))) = [13, 14, 15]
      ∧ (3 : Int) + ("Eduardo".toList.length : Int) = 10
      ∧ 3 + ("Eduardo".toList.length : Int) ≤ LCD_MAX_COLUMNS :=
  ⟨main_configured_trace p sda scl hbus hsda hscl, rfl, by decide, by decide, by decide,
    by decide, by decide⟩

theorem main_line0_text_exceeds_columns_witness :
    (main pico).isSome = true
      ∧ LCD_MAX_COLUMNS < 3 + ("Flores Dominguez".toList.length : Int) := by
  have h := main_line0_text_exceeds_columns pico 4 5 rfl rfl rfl
  refine ⟨?_, h.2.2.2.1⟩
  rw [h.1]
  rfl

end I2cNombre
